import Mathlib

/-!
Shallow embedding of `analyze_phone_pii.py`: a classifier that decides whether
a logged SQL query text references phone-number data
(`find_phone_pattern_in_query`), and a consolidator that scans CSV audit-log
files, applies the classifier to each row's embedded query, and writes one
merged CSV (`process_csv_file` and the body of `main`).

Strings are modelled as `List Char` / `String`; Python's `re` patterns, which
are fixed literals in the source, are compiled by hand into explicit matchers
with Python's leftmost-then-greedy backtracking semantics.  Case folding is
ASCII (`Char.toLower`), matching the ASCII SQL text the tool targets.
-/

namespace AnalyzePhonePii

/-- Python `\w` over ASCII: letters, digits, underscore. -/
def isWordChar (c : Char) : Bool := c.isAlphanum || c = '_'

/-- Python `\s` over ASCII: space, tab, newline, carriage return, vertical tab, form feed. -/
def isSpaceChar (c : Char) : Bool :=
  c = ' ' || c = '\t' || c = '\n' || c = '\r' || c = '\x0b' || c = '\x0c'

/-- The backtick character (scalar value 96). -/
def btick : Char := Char.ofNat 96

/-- The character class `[^\s,`"]` used in the table-extraction regex:
characters allowed inside an extracted table token. -/
def isTokChar (c : Char) : Bool :=
  !(isSpaceChar c || c = ',' || c = btick || c = '"')

/-- Case-insensitive character equality, as Python `re.IGNORECASE` over ASCII. -/
def ciEq (a b : Char) : Bool := a.toLower == b.toLower

/-- Case-insensitive "the literal `lit` is a prefix of `s`". -/
def ciStartsWith : List Char → List Char → Bool
  | [], _ => true
  | _ :: _, [] => false
  | a :: as, b :: bs => ciEq a b && ciStartsWith as bs

/-- `\b` on the left of a match position: start of text, or previous char not a word char. -/
def nonWordStart : Option Char → Bool
  | none => true
  | some c => !isWordChar c

/-- `\b` on the right of a match: end of text, or next char not a word char. -/
def nonWordNext : List Char → Bool
  | [] => true
  | c :: _ => !isWordChar c

/-- First `some` produced by `f` over a list, in order (the `for`/`return` loop shape). -/
def firstHit (f : α → Option β) : List α → Option β
  | [] => none
  | a :: as =>
    match f a with
    | some b => some b
    | none => firstHit f as

/-- `[hi, hi-1, ..., 0]`: candidate lengths for a greedy quantifier, longest first. -/
def descRange (hi : Nat) : List Nat := (List.range (hi + 1)).map (fun k => hi - k)

/-- `[hi, hi-1, ..., 1]`: candidate lengths for a greedy `+` quantifier, longest first. -/
def descRangePos (hi : Nat) : List Nat := (List.range hi).map (fun k => hi - k)

/-- Generic leftmost regex search: try the position matcher `mat` (which receives the
previous character, for `\b`, and the remaining text, and returns the match length)
at every position left to right; return the first matching position and its length.
This is `re.search` specialised to our matchers. -/
def searchFrom (mat : Option Char → List Char → Option Nat) :
    Option Char → List Char → Nat → Option (Nat × Nat)
  | prev, [], i =>
    match mat prev [] with
    | some len => some (i, len)
    | none => none
  | prev, c :: rest, i =>
    match mat prev (c :: rest) with
    | some len => some (i, len)
    | none => searchFrom mat (some c) rest (i + 1)

/-- Matcher for `\bLIT\b` (case-insensitive) at a fixed position. -/
def matchWordPat (lit : List Char) (prev : Option Char) (s : List Char) : Option Nat :=
  if nonWordStart prev && ciStartsWith lit s && nonWordNext (s.drop lit.length) then
    some lit.length
  else none

def toContactLit : List Char := "to_contact".toList

/-- Matcher for `PHONE_PATTERNS[0]`, the regex `\bto_contact(?:_\w+)?\b`, at a fixed
position: greedy optional `_\w+` (maximal word-character run), then `\b`. -/
def matchToContact (prev : Option Char) (s : List Char) : Option Nat :=
  if nonWordStart prev && ciStartsWith toContactLit s then
    match s.drop toContactLit.length with
    | '_' :: r2 =>
      let run := (r2.takeWhile isWordChar).length
      if run ≥ 1 then some (toContactLit.length + 1 + run) else none
    | rest => if nonWordNext rest then some toContactLit.length else none
  else none

/-- One entry of the source's `PHONE_PATTERNS` list: either the special
`\bto_contact(?:_\w+)?\b` pattern or a plain whole-word literal `\bLIT\b`. -/
inductive PhonePat where
  | toContactPat : PhonePat
  | wordPat : String → PhonePat
deriving DecidableEq, Repr

/-- `PHONE_PATTERNS`: the fixed ordered list of phone-related column-name regexes. -/
def PHONE_PATTERNS : List PhonePat :=
  [ .toContactPat,
    .wordPat "phone",
    .wordPat "mobile",
    .wordPat "cell",
    .wordPat "tel",
    .wordPat "contact_number",
    .wordPat "phone_number",
    .wordPat "handphone",
    .wordPat "hp_number",
    .wordPat "telephone",
    .wordPat "telephone_number",
    .wordPat "contact_phone",
    .wordPat "customer_phone",
    .wordPat "recipient_phone",
    .wordPat "sender_phone",
    .wordPat "phone_no",
    .wordPat "mobile_no",
    .wordPat "phone_num",
    .wordPat "mobile_num" ]

def patMatcher : PhonePat → Option Char → List Char → Option Nat
  | .toContactPat => matchToContact
  | .wordPat lit => matchWordPat lit.toList

/-- `re.search(pattern, query_text, re.IGNORECASE)` for one column pattern:
leftmost match position and length in the original (case-preserving) text. -/
def searchPat (p : PhonePat) (text : List Char) : Option (Nat × Nat) :=
  searchFrom (patMatcher p) none text 0

/-- The `for pattern in PHONE_PATTERNS` loop: first pattern in list order with any
match anywhere in the text wins; result is the matched substring of the original text. -/
def findColMatch : List PhonePat → List Char → Option (List Char)
  | [], _ => none
  | p :: ps, text =>
    match searchPat p text with
    | some (i, len) => some ((text.drop i).take len)
    | none => findColMatch ps text

def selectLit : List Char := "select".toList

/-- The first gate in the classifier: `re.search(r'\bselect\b', query_lower, re.IGNORECASE)`. -/
def hasSelectWord (text : List Char) : Bool :=
  (searchFrom (matchWordPat selectLit) none (text.map Char.toLower) 0).isSome

/-- Matcher for `select\s+\*` at a fixed position (no word boundaries in the source
pattern).  The greedy `\s+` needs no backtracking: a shorter whitespace run would
leave a whitespace character where `\*` must match. -/
def matchSelectStar (_prev : Option Char) (s : List Char) : Option Nat :=
  if ciStartsWith selectLit s then
    let rest := s.drop selectLit.length
    let w := (rest.takeWhile isSpaceChar).length
    if w ≥ 1 then
      match rest.drop w with
      | '*' :: _ => some (selectLit.length + w + 1)
      | _ => none
    else none
  else none

/-- `re.search(r'select\s+\*', query_lower, re.IGNORECASE)`. -/
def hasSelectStar (text : List Char) : Bool :=
  (searchFrom matchSelectStar none (text.map Char.toLower) 0).isSome

/-- One entry of the source's `PHONE_TABLES` list.  Each is `stem` optionally
followed by one character (`s?` or `t?`), then `\b`.  The first entry of the list,
the raw pattern `\to_contact?\b`, begins with the regex escape `\t` — a literal TAB
character — rather than a `\b` word boundary; `tabStart` records this. -/
structure TabPat where
  tabStart : Bool
  stem : String
  hasOpt : Bool
  optChar : Char
deriving DecidableEq, Repr

/-- `PHONE_TABLES`: the fixed ordered list of phone-related table-name regexes. -/
def PHONE_TABLES : List TabPat :=
  [ ⟨true, "o_contac", true, 't'⟩,
    ⟨false, "contact", true, 's'⟩,
    ⟨false, "addresse", true, 's'⟩,
    ⟨false, "recipient", true, 's'⟩,
    ⟨false, "sender", true, 's'⟩,
    ⟨false, "user_contact", true, 's'⟩,
    ⟨false, "customer_contact", true, 's'⟩,
    ⟨false, "contact_info", false, ' '⟩ ]

/-- Matcher for the stem of a table pattern plus its greedy optional final character,
followed by `\b`.  If the optional character is taken but the boundary fails, the
empty alternative is tried, as a backtracking engine would. -/
def matchStemOpt (p : TabPat) (s : List Char) : Option Nat :=
  if ciStartsWith p.stem.toList s then
    if p.hasOpt then
      match s.drop p.stem.toList.length with
      | c :: r2 =>
        if ciEq c p.optChar && nonWordNext r2 then some (p.stem.toList.length + 1)
        else if nonWordNext (c :: r2) then some p.stem.toList.length
        else none
      | [] => some p.stem.toList.length
    else if nonWordNext (s.drop p.stem.toList.length) then some p.stem.toList.length
    else none
  else none

/-- Matcher for a whole table pattern at a fixed position: a literal TAB for the
first entry, a `\b` word boundary for the others, then stem and optional character. -/
def matchTabPatAt (p : TabPat) (prev : Option Char) (s : List Char) : Option Nat :=
  if p.tabStart then
    match s with
    | '\t' :: r => (matchStemOpt p r).map (fun n => 1 + n)
    | _ => none
  else
    if nonWordStart prev then matchStemOpt p s else none

/-- Length of the maximal run of `[^\s,`"]` characters at the head of `s`. -/
def tokRunLen (s : List Char) : Nat := (s.takeWhile isTokChar).length

/-- Length of the maximal run of whitespace at the head of `s`. -/
def wsRunLen (s : List Char) : Nat := (s.takeWhile isSpaceChar).length

/-- Backtracking match of the capture group `([^\s,`"]*PAT[^\s,`"]*)` followed by the
backreference `\1`, starting at the group-2 position: `prev2` is the character just
before the group (for `\b` inside PAT), `delim` the optional quote matched by group 1.
Returns the length of group 2.  Greedy order: the leading star tries longer prefixes
first; with no delimiter the trailing star greedily takes the whole token run, with a
delimiter it backtracks until the backreference matches. -/
def matchInner (p : TabPat) (delim : Option Char) (prev2 : Option Char)
    (s2 : List Char) : Option Nat :=
  firstHit (fun a =>
    let sa := s2.drop a
    let prevA : Option Char := if a = 0 then prev2 else s2.get? (a - 1)
    match matchTabPatAt p prevA sa with
    | none => none
    | some L =>
      let sb := sa.drop L
      let bmax := tokRunLen sb
      match delim with
      | none => some (a + L + bmax)
      | some d =>
        firstHit (fun b =>
          match sb.drop b with
          | c :: _ => if c = d then some (a + L + b) else none
          | [] => none) (descRange bmax))
    (descRange (tokRunLen s2))

/-- Matcher for the whole extraction regex
`\bfrom\s+([`"]?)([^\s,`"]*PAT[^\s,`"]*)\1` at a fixed position, returning the text
captured by group 2 (the extracted table token).  Backtracking order: greedy `\s+`
(longest whitespace run first), then the greedy optional delimiter (group 1). -/
def matchFromAt (p : TabPat) (prev : Option Char) (s : List Char) :
    Option (List Char) :=
  if nonWordStart prev && ciStartsWith ("from".toList) s then
    let s4 := s.drop 4
    firstHit (fun w =>
      let sw := s4.drop w
      let prevW : Option Char := s4.get? (w - 1)
      let delims : List (Option Char) :=
        match sw with
        | c :: _ => if c = btick || c = '"' then [some c, none] else [none]
        | [] => [none]
      firstHit (fun delim =>
        match delim with
        | some d => (matchInner p (some d) (some d) (sw.drop 1)).map
            (fun g2 => (sw.drop 1).take g2)
        | none => (matchInner p none prevW sw).map (fun g2 => sw.take g2))
        delims)
      (descRangePos (wsRunLen s4))
  else none

/-- `re.search` of the extraction regex for one table pattern: leftmost position wins;
result is the group-2 capture (the extracted table token). -/
def searchFromTable (p : TabPat) : Option Char → List Char → Option (List Char)
  | prev, [] => matchFromAt p prev []
  | prev, c :: rest =>
    match matchFromAt p prev (c :: rest) with
    | some g => some g
    | none => searchFromTable p (some c) rest

/-- The `for table_pattern in PHONE_TABLES` loop: first table pattern in list order
whose extraction regex matches wins; result is the extracted table token. -/
def findTableMatch : List TabPat → List Char → Option (List Char)
  | [], _ => none
  | p :: ps, text =>
    match searchFromTable p none text with
    | some tok => some tok
    | none => findTableMatch ps text

/-- `find_phone_pattern_in_query` from the source: `None` for empty text or text with
no whole-word `select`; otherwise the first matching column pattern's matched text
(original casing); otherwise, if the text contains `select\s+\*`, the synthesized
string `SELECT * from <token>` for the first matching table pattern; otherwise `None`. -/
def find_phone_pattern_in_query (q : String) : Option String :=
  if q.toList.isEmpty then none
  else if !hasSelectWord q.toList then none
  else
    match findColMatch PHONE_PATTERNS q.toList with
    | some m => some (String.mk m)
    | none =>
      if hasSelectStar q.toList then
        match findTableMatch PHONE_TABLES q.toList with
        | some tok => some ("SELECT * from " ++ String.mk tok)
        | none => none
      else none

/-! ## Consolidator

`process_csv_file` reads one CSV with `csv.DictReader` and accumulates
`(row, matched_pattern)` pairs; `main` folds it over the fixed file list,
fixes the output schema at the first file with matches, and writes one CSV.

A CSV row is its `DictReader` dictionary: an association list of
column name → value, in header order.  `json.loads` is the one external
boundary we abstract: each run is parameterised by a `parse` oracle giving,
for the raw `additional_properties` text, the outcome the source's
`json.loads` + `.get('query', '')` sequence distinguishes —
a decode error, a non-object value (whose `.get` raises an uncaught
`AttributeError`), or an object with an optional string `query` field. -/

/-- A `DictReader` row: column name → value pairs in header order. -/
abbrev LogRow := List (String × String)

/-- Outcome of `json.loads` on a row's `additional_properties` text, as far as the
source distinguishes: `jerror` is a `json.JSONDecodeError` (caught by the per-row
handler); `jnonObject` is a successfully parsed non-object, whose `.get('query')`
raises an `AttributeError` the per-row handler does not catch; `jobject q` is an
object whose `query` field is the string `q` (or missing when `q = none`). -/
inductive JsonOutcome where
  | jerror : JsonOutcome
  | jnonObject : JsonOutcome
  | jobject : Option String → JsonOutcome
deriving DecidableEq, Repr

/-- One step of the `for row in reader` loop: either the reader yields a row, or
raises mid-file (I/O failure, unreadable encoding) at this point. -/
inductive RowEvent where
  | rowEv : LogRow → RowEvent
  | readErr : RowEvent
deriving DecidableEq, Repr

/-- One of the six expected input files: missing on disk, or present with its
header (`reader.fieldnames`) and the sequence of row events. -/
inductive InputFile where
  | missing : InputFile
  | present : List String → List RowEvent → InputFile
deriving DecidableEq, Repr

/-- `row.get(k)`: first value bound to `k` in the row. -/
def lookupField (row : LogRow) (k : String) : Option String :=
  (row.find? (fun kv => kv.fst = k)).map (·.snd)

/-- The literal `'{}'` default of `row.get('additional_properties', '{}')`. -/
def emptyJsonText : String := "\x7b\x7d"

/-- The raw text handed to `json.loads` for a row. -/
def apText (row : LogRow) : String :=
  (lookupField row "additional_properties").getD emptyJsonText

/-- `process_csv_file` from the source.  `matching_rows` is initialised before the
`try:`; a `JSONDecodeError` (or `KeyError`) skips the single row; any other
exception — a reader failure (`readErr`) or the `AttributeError` from a non-object
`additional_properties` — propagates to the whole-file handler, which logs and
returns the rows collected so far. -/
def process_csv_file (parse : String → JsonOutcome) :
    List RowEvent → List (LogRow × String)
  | [] => []
  | .readErr :: _ => []
  | .rowEv row :: rest =>
    match parse (apText row) with
    | .jerror => process_csv_file parse rest
    | .jnonObject => []
    | .jobject q =>
      match find_phone_pattern_in_query (q.getD "") with
      | some m => (row, m) :: process_csv_file parse rest
      | none => process_csv_file parse rest

/-- Python dict assignment on a copy: replace the value in place if the key exists
(keeping its position), otherwise append the new key. -/
def dictInsert (row : LogRow) (k v : String) : LogRow :=
  if row.any (fun kv => kv.fst = k) then
    row.map (fun kv => if kv.fst = k then (k, v) else kv)
  else row ++ [(k, v)]

/-- Append the matched pattern to a matching row, as
`row_copy['matched_phone_pattern'] = pattern`. -/
def addMatched (rp : LogRow × String) : LogRow :=
  dictInsert rp.fst "matched_phone_pattern" rp.snd

/-- The mutable state of `main`'s file loop: `all_matching_rows` and the
once-initialised `fieldnames`. -/
structure ConsState where
  allRows : List LogRow
  fieldnames : Option (List String)
deriving DecidableEq, Repr

/-- One iteration of `for csv_file in csv_files`: a missing file is skipped; for a
present file, process it; if it yielded matches, fix `fieldnames` from the first
matching row's keys (first file with matches only) and append the rows. -/
def stepFile (parse : String → JsonOutcome) (st : ConsState) (file : InputFile) :
    ConsState :=
  match file with
  | .missing => st
  | .present _ events =>
    match process_csv_file parse events with
    | [] => st
    | (r0, m0) :: mrest =>
      let fns := match st.fieldnames with
        | none => some (r0.map Prod.fst ++ ["matched_phone_pattern"])
        | some f => some f
      { allRows := st.allRows ++ ((r0, m0) :: mrest).map addMatched,
        fieldnames := fns }

/-- The whole file loop of `main`, from the empty initial state. -/
def consolidate (parse : String → JsonOutcome) (files : List InputFile) : ConsState :=
  files.foldl (stepFile parse) ⟨[], none⟩

/-- The matches one input file contributes: none for a missing file. -/
def fileMatches (parse : String → JsonOutcome) : InputFile → List (LogRow × String)
  | .missing => []
  | .present _ events => process_csv_file parse events

/-- The fallback header scan of `main` when no row matched: the header of the first
existing input file. -/
def firstExistingHeader : List InputFile → Option (List String)
  | [] => none
  | .missing :: fs => firstExistingHeader fs
  | .present h _ :: _ => some h

/-- The hardcoded fallback header line of `main`, as a field list. -/
def DEFAULT_HEADER : List String :=
  ["id", "org_id", "user_id", "action", "object_type", "object_id",
   "additional_properties", "created_at", "matched_phone_pattern"]

/-- `csv.DictWriter._dict_to_list`: values in fieldnames order, missing keys filled
with the empty-string `restval`; a key absent from `fieldnames` raises `ValueError`
(`extrasaction='raise'`), modelled as `none`. -/
def dictToRow (fns : List String) (row : LogRow) : Option (List String) :=
  if row.all (fun kv => fns.contains kv.fst) then
    some (fns.map (fun k => (lookupField row k).getD ""))
  else none

/-- `writer.writerows`: serialise each accumulated row in order; the first row whose
keys are not all in the schema raises, modelled as `none` (no complete output). -/
def rowsToCsv (fns : List String) : List LogRow → Option (List (List String))
  | [] => some []
  | r :: rs =>
    match dictToRow fns r, rowsToCsv fns rs with
    | some fields, some rest => some (fields :: rest)
    | _, _ => none

/-- The output-writing section of `main`, at the level of rows of fields: the first
row is the header.  With zero matches: the determined schema if any (always `none`
then), else the first existing file's header plus the appended column, else — or if
the resulting fieldnames are falsy — the hardcoded default header.  With matches:
header then every accumulated row serialised by `DictWriter`; `none` models the
uncaught `ValueError` on a row whose keys are not all in the schema. -/
def writeOutput (parse : String → JsonOutcome) (files : List InputFile) :
    Option (List (List String)) :=
  let st := consolidate parse files
  match st.allRows with
  | [] =>
    let fns := match st.fieldnames with
      | some f => some f
      | none => (firstExistingHeader files).map (fun h => h ++ ["matched_phone_pattern"])
    match fns with
    | some f => if f.isEmpty then some [DEFAULT_HEADER] else some [f]
    | none => some [DEFAULT_HEADER]
  | r :: rs =>
    match st.fieldnames with
    | some f => (rowsToCsv f (r :: rs)).map (fun body => f :: body)
    | none => none

/-- `csv` QUOTE_MINIMAL field serialisation: quote the field if it contains a comma,
quote, CR or LF, doubling embedded quotes. -/
def csvQuoteField (s : String) : String :=
  if s.toList.any (fun c => c = ',' || c = '"' || c = '\r' || c = '\n') then
    "\"" ++ String.mk (s.toList.foldr
      (fun c acc => if c = '"' then '"' :: '"' :: acc else c :: acc) []) ++ "\""
  else s

/-- One CSV line as `csv.writer` emits it: comma-joined fields, `\r\n` terminator. -/
def csvLine (fields : List String) : String :=
  String.intercalate "," (fields.map csvQuoteField) ++ "\r\n"

/-- The hardcoded fallback header is written with `f.write(...)` and a bare `\n`. -/
def defaultHeaderLine : String :=
  "id,org_id,user_id,action,object_type,object_id,additional_properties,created_at,matched_phone_pattern\n"

/-- The exact bytes `main` writes to `pii_phone_number_logs.csv` (UTF-8 text):
the same case analysis as `writeOutput`, with `DictWriter` lines terminated by
`\r\n` and the hardcoded fallback by `\n`. -/
def writeOutputBytes (parse : String → JsonOutcome) (files : List InputFile) :
    Option String :=
  let st := consolidate parse files
  match st.allRows with
  | [] =>
    let fns := match st.fieldnames with
      | some f => some f
      | none => (firstExistingHeader files).map (fun h => h ++ ["matched_phone_pattern"])
    match fns with
    | some f => if f.isEmpty then some defaultHeaderLine else some (csvLine f)
    | none => some defaultHeaderLine
  | r :: rs =>
    match st.fieldnames with
    | some f => (rowsToCsv f (r :: rs)).map
        (fun body => csvLine f ++ String.join (body.map csvLine))
    | none => none

/-! ## Concrete fixtures for witnesses and counterexamples

A small concrete JSON-parse oracle and input files, used to instantiate the
quantified theorems at computable inputs. -/

/-- A concrete parse oracle: a few fixed `additional_properties` texts map to fixed
outcomes, everything else is malformed JSON. -/
def parseEx : String → JsonOutcome := fun s =>
  if s = "qPhone" then .jobject (some "SELECT phone FROM users")
  else if s = "qStar" then .jobject (some "select * from contacts")
  else if s = "qNone" then .jobject (some "select 1")
  else if s = "noQuery" then .jobject none
  else if s = "notAnObject" then .jnonObject
  else if s = emptyJsonText then .jobject none
  else .jerror

def rowPhone : LogRow := [("id", "1"), ("additional_properties", "qPhone")]

def rowStar : LogRow := [("id", "2"), ("additional_properties", "qStar")]

def rowBadJson : LogRow := [("id", "3"), ("additional_properties", "oops")]

def rowNoAP : LogRow := [("id", "4")]

def rowNonObj : LogRow := [("id", "5"), ("additional_properties", "notAnObject")]

def rowNoQuery : LogRow := [("id", "6"), ("additional_properties", "noQuery")]

/-- A file whose reader fails after one matched row. -/
def fileCut : InputFile :=
  .present ["id", "additional_properties"] [.rowEv rowPhone, .readErr, .rowEv rowStar]

/-- A file that processes cleanly but yields no matches. -/
def fileQuiet : InputFile :=
  .present ["x", "additional_properties"] [.rowEv [("x", "0"), ("additional_properties", "qNone")]]

/-- A file with two matching rows. -/
def fileHits : InputFile :=
  .present ["id", "additional_properties"] [.rowEv rowPhone, .rowEv rowStar]

/-- A character `d` of a regex literal such that any character matching `d`
case-insensitively is a token character: `d` is its own lowercase form and is
itself a token character. -/
def stableTok (d : Char) : Bool := (d.toLower == d) && isTokChar d

/-! ## Helper lemmas -/

theorem firstHit_eq_some {α β : Type} {f : α → Option β} :
    ∀ {l : List α} {b : β}, firstHit f l = some b → ∃ a ∈ l, f a = some b := by
  intro l
  induction l with
  | nil => intro b h; simp [firstHit] at h
  | cons a as ih =>
    intro b h
    by_cases hfa : (f a).isSome
    · obtain ⟨b', hb'⟩ := Option.isSome_iff_exists.mp hfa
      refine ⟨a, by simp, ?_⟩
      simp only [firstHit, hb'] at h ⊢
      exact h
    · have hfa' : f a = none := Option.not_isSome_iff_eq_none.mp hfa
      simp only [firstHit, hfa'] at h
      obtain ⟨a', ha', hfa2⟩ := ih h
      exact ⟨a', by simp [ha'], hfa2⟩

theorem mem_descRange {a hi : Nat} (h : a ∈ descRange hi) : a ≤ hi := by
  simp only [descRange, List.mem_map, List.mem_range] at h
  obtain ⟨k, _, rfl⟩ := h
  exact Nat.sub_le hi k

theorem mem_descRangePos {a hi : Nat} (h : a ∈ descRangePos hi) : 1 ≤ a ∧ a ≤ hi := by
  simp only [descRangePos, List.mem_map, List.mem_range] at h
  obtain ⟨k, hk, rfl⟩ := h
  omega

theorem searchFrom_eq_none (mat : Option Char → List Char → Option Nat) :
    ∀ (s : List Char) (prev : Option Char) (i : Nat),
      mat prev s = none →
      (∀ k, k < s.length → mat (s.get? k) (s.drop (k + 1)) = none) →
      searchFrom mat prev s i = none := by
  intro s
  induction s with
  | nil => intro prev i h0 _; simp [searchFrom, h0]
  | cons c rest ih =>
    intro prev i h0 hk
    simp only [searchFrom, h0]
    refine ih (some c) (i + 1) ?_ ?_
    · have := hk 0 (by simp)
      simpa using this
    · intro k hklt
      have := hk (k + 1) (by simpa using Nat.succ_lt_succ hklt)
      simpa using this

theorem findColMatch_spec (t : List Char) :
    ∀ (l : List PhonePat) (k : Nat) (p : PhonePat) (i len : Nat),
      l.get? k = some p →
      (∀ p' ∈ l.take k, searchPat p' t = none) →
      searchPat p t = some (i, len) →
      findColMatch l t = some ((t.drop i).take len) := by
  intro l
  induction l with
  | nil => intro k p i len hk _ _; simp at hk
  | cons a as ih =>
    intro k p i len hk hpre hp
    cases k with
    | zero =>
      simp only [List.get?] at hk
      cases hk
      simp [findColMatch, hp]
    | succ k' =>
      have ha : searchPat a t = none := hpre a (by simp [List.take])
      simp only [findColMatch, ha]
      exact ih k' p i len (by simpa using hk)
        (fun p' hp' => hpre p' (by simp [List.take, hp'])) hp

theorem findColMatch_none (t : List Char) :
    ∀ (l : List PhonePat), (∀ p ∈ l, searchPat p t = none) → findColMatch l t = none := by
  intro l
  induction l with
  | nil => intro _; simp [findColMatch]
  | cons a as ih =>
    intro h
    have ha : searchPat a t = none := h a (by simp)
    simp only [findColMatch, ha]
    exact ih (fun p hp => h p (by simp [hp]))

theorem findTableMatch_spec (t : List Char) :
    ∀ (l : List TabPat) (k : Nat) (p : TabPat) (tok : List Char),
      l.get? k = some p →
      (∀ p' ∈ l.take k, searchFromTable p' none t = none) →
      searchFromTable p none t = some tok →
      findTableMatch l t = some tok := by
  intro l
  induction l with
  | nil => intro k p tok hk _ _; simp at hk
  | cons a as ih =>
    intro k p tok hk hpre hp
    cases k with
    | zero =>
      simp only [List.get?] at hk
      cases hk
      simp [findTableMatch, hp]
    | succ k' =>
      have ha : searchFromTable a none t = none := hpre a (by simp [List.take])
      simp only [findTableMatch, ha]
      exact ih k' p tok (by simpa using hk)
        (fun p' hp' => hpre p' (by simp [List.take, hp']))  hp

theorem findTableMatch_none (t : List Char) :
    ∀ (l : List TabPat), (∀ p ∈ l, searchFromTable p none t = none) →
      findTableMatch l t = none := by
  intro l
  induction l with
  | nil => intro _; simp [findTableMatch]
  | cons a as ih =>
    intro h
    have ha : searchFromTable a none t = none := h a (by simp)
    simp only [findTableMatch, ha]
    exact ih (fun p hp => h p (by simp [hp]))

theorem hasSelectWord_ne_nil {text : List Char} (h : hasSelectWord text = true) :
    text ≠ [] := by
  intro hnil
  subst hnil
  simp [hasSelectWord, searchFrom, matchWordPat, selectLit, ciStartsWith] at h

/-- Any event that makes `process_csv_file` return the empty list whatever follows it
(a reader failure or an uncaught per-row exception) cuts the file at that point:
the rows collected before it are returned unchanged. -/
theorem process_append_abort (parse : String → JsonOutcome) (e : RowEvent)
    (he : ∀ rest, process_csv_file parse (e :: rest) = []) :
    ∀ (pre rest : List RowEvent),
      process_csv_file parse (pre ++ e :: rest) = process_csv_file parse pre := by
  intro pre
  induction pre with
  | nil => intro rest; simpa using he rest
  | cons e' pre' ih =>
    intro rest
    cases e' with
    | readErr => simp [process_csv_file]
    | rowEv row =>
      cases hpq : parse (apText row) with
      | jerror => simp [process_csv_file, hpq, ih rest]
      | jnonObject => simp [process_csv_file, hpq]
      | jobject q =>
        cases hm : find_phone_pattern_in_query (q.getD "") with
        | none => simp [process_csv_file, hpq, hm, ih rest]
        | some m => simp [process_csv_file, hpq, hm, ih rest]

theorem process_readErr_aborts (parse : String → JsonOutcome) :
    ∀ rest, process_csv_file parse (.readErr :: rest) = [] := by
  intro rest; rfl

theorem process_nonObject_aborts (parse : String → JsonOutcome) (row : LogRow)
    (h : parse (apText row) = .jnonObject) :
    ∀ rest, process_csv_file parse (.rowEv row :: rest) = [] := by
  intro rest; simp [process_csv_file, h]

/-- A file contributing no matches leaves the loop state unchanged. -/
theorem stepFile_no_matches (parse : String → JsonOutcome) (st : ConsState)
    (g : InputFile) (h : fileMatches parse g = []) : stepFile parse st g = st := by
  cases g with
  | missing => rfl
  | present hdr events =>
    simp only [fileMatches] at h
    simp [stepFile, h]

theorem foldl_no_matches (parse : String → JsonOutcome) :
    ∀ (files : List InputFile) (st : ConsState),
      (∀ g ∈ files, fileMatches parse g = []) →
      files.foldl (stepFile parse) st = st := by
  intro files
  induction files with
  | nil => intro st _; rfl
  | cons g gs ih =>
    intro st h
    simp only [List.foldl_cons]
    rw [stepFile_no_matches parse st g (h g (by simp))]
    exact ih st (fun g' hg' => h g' (by simp [hg']))

/-- Once `fieldnames` is set, no later file changes it. -/
theorem foldl_fieldnames_some (parse : String → JsonOutcome) :
    ∀ (files : List InputFile) (st : ConsState) (f : List String),
      st.fieldnames = some f →
      (files.foldl (stepFile parse) st).fieldnames = some f := by
  intro files
  induction files with
  | nil => intro st f h; simpa using h
  | cons g gs ih =>
    intro st f h
    simp only [List.foldl_cons]
    refine ih _ f ?_
    cases g with
    | missing => simpa using h
    | present hdr events =>
      simp only [stepFile]
      cases process_csv_file parse events with
      | nil => simpa using h
      | cons rm rest => simp [h]

/-- `all_matching_rows` accumulates each file's matches in file order. -/
theorem foldl_allRows (parse : String → JsonOutcome) :
    ∀ (files : List InputFile) (st : ConsState),
      (files.foldl (stepFile parse) st).allRows
        = st.allRows ++ (files.map (fun f => (fileMatches parse f).map addMatched)).flatten := by
  intro files
  induction files with
  | nil => intro st; simp
  | cons g gs ih =>
    intro st
    simp only [List.foldl_cons, List.map_cons, List.flatten_cons]
    rw [ih]
    cases g with
    | missing => simp [stepFile, fileMatches]
    | present hdr events =>
      simp only [stepFile, fileMatches]
      cases process_csv_file parse events with
      | nil => simp
      | cons rm rest => simp

/-- `fieldnames` is only ever set by a file that also contributes rows. -/
theorem foldl_fieldnames_none (parse : String → JsonOutcome) :
    ∀ (files : List InputFile) (st : ConsState),
      (files.foldl (stepFile parse) st).fieldnames = none →
      st.fieldnames = none := by
  intro files
  induction files with
  | nil => intro st h; simpa using h
  | cons g gs ih =>
    intro st h
    have h' := ih _ h
    cases g with
    | missing => simpa using h'
    | present hdr events =>
      simp only [stepFile] at h'
      cases hpe : process_csv_file parse events with
      | nil => simpa [hpe] using h'
      | cons rm rest =>
        simp only [hpe] at h'
        cases hst : st.fieldnames with
        | none => rfl
        | some f => simp [hst] at h'

/-! ## Token-boundedness of the table extraction (word-boundary patterns) -/

theorem isTokChar_false_cases {c : Char} (h : isTokChar c = false) :
    c = ' ' ∨ c = '\t' ∨ c = '\n' ∨ c = '\r' ∨ c = '\x0b' ∨ c = '\x0c' ∨
      c = ',' ∨ c = btick ∨ c = '"' := by
  simp only [isTokChar, Bool.not_eq_false', Bool.or_eq_true, decide_eq_true_eq,
    isSpaceChar] at h
  tauto

theorem and_true_split {a b : Bool} (h : (a && b) = true) : a = true ∧ b = true := by
  simp only [Bool.and_eq_true] at h
  exact h

theorem tok_of_ciEq {c d : Char} (h : ciEq c d = true) (hd : stableTok d = true) :
    isTokChar c = true := by
  obtain ⟨hd1, hd2⟩ :=
    and_true_split (show ((d.toLower == d) && isTokChar d) = true from hd)
  have hd1' : d.toLower = d := by simpa using hd1
  have hlow : c.toLower = d.toLower := by simpa [ciEq] using h
  by_contra hc
  have hc' : isTokChar c = false := by simpa using hc
  have hcd : c.toLower = c := by
    rcases isTokChar_false_cases hc' with rfl|rfl|rfl|rfl|rfl|rfl|rfl|rfl|rfl <;> decide
  have hcdeq : c = d := by rw [← hcd, hlow, hd1']
  rw [hcdeq, hd2] at hc'
  exact absurd hc' (by simp)

theorem ciEq_symm {a b : Char} (h : ciEq a b = true) : ciEq b a = true := by
  simp only [ciEq, beq_iff_eq] at h ⊢
  exact h.symm

theorem take_all_tok_of_ciStartsWith :
    ∀ (lit s : List Char), ciStartsWith lit s = true → lit.all stableTok = true →
      (s.take lit.length).all isTokChar = true := by
  intro lit
  induction lit with
  | nil => intro s _ _; simp
  | cons a as ih =>
    intro s h hall
    cases s with
    | nil => simp [ciStartsWith] at h
    | cons b bs =>
      simp only [ciStartsWith, Bool.and_eq_true] at h
      simp only [List.all_cons, Bool.and_eq_true] at hall
      simp only [List.length_cons, List.take_succ_cons, List.all_cons, Bool.and_eq_true]
      exact ⟨tok_of_ciEq (ciEq_symm h.1) hall.1, ih bs h.2 hall.2⟩

theorem take_all_of_le_takeWhile (p : Char → Bool) :
    ∀ (l : List Char) (n : Nat), n ≤ (l.takeWhile p).length → (l.take n).all p = true := by
  intro l
  induction l with
  | nil => intro n h; simp at h; simp [h]
  | cons c cs ih =>
    intro n h
    cases n with
    | zero => simp
    | succ n' =>
      by_cases hpc : p c
      · rw [List.takeWhile_cons_of_pos hpc, List.length_cons] at h
        simp only [List.take_succ_cons, List.all_cons, hpc, Bool.true_and]
        exact ih n' (Nat.le_of_succ_le_succ h)
      · rw [List.takeWhile_cons_of_neg hpc] at h
        simp at h

theorem matchStemOpt_cases {p : TabPat} {s : List Char} {L : Nat}
    (hm : matchStemOpt p s = some L) :
    ciStartsWith p.stem.toList s = true ∧
      (L = p.stem.toList.length ∨
        (L = p.stem.toList.length + 1 ∧ p.hasOpt = true ∧
          ∃ c r2, s.drop p.stem.toList.length = c :: r2 ∧ ciEq c p.optChar = true)) := by
  unfold matchStemOpt at hm
  by_cases hci : ciStartsWith p.stem.toList s = true
  case neg =>
    rw [if_neg hci] at hm
    exact absurd hm (by simp)
  case pos =>
    rw [if_pos hci] at hm
    refine ⟨hci, ?_⟩
    by_cases hopt : p.hasOpt = true
    case pos =>
      rw [if_pos hopt] at hm
      split at hm
      case h_2 hdrop =>
        left
        exact (Option.some.inj hm).symm
      case h_1 c r2 hdrop =>
        by_cases hcc : (ciEq c p.optChar && nonWordNext r2) = true
        case pos =>
          rw [if_pos hcc] at hm
          right
          exact ⟨(Option.some.inj hm).symm, hopt, c, r2, hdrop, (and_true_split hcc).1⟩
        case neg =>
          rw [if_neg hcc] at hm
          by_cases hnw : nonWordNext (c :: r2) = true
          · rw [if_pos hnw] at hm
            left
            exact (Option.some.inj hm).symm
          · rw [if_neg hnw] at hm
            exact absurd hm (by simp)
    case neg =>
      rw [if_neg hopt] at hm
      by_cases hnw : nonWordNext (s.drop p.stem.toList.length) = true
      · rw [if_pos hnw] at hm
        left
        exact (Option.some.inj hm).symm
      · rw [if_neg hnw] at hm
        exact absurd hm (by simp)

theorem matchTabPatAt_stem {p : TabPat} (htab : p.tabStart = false)
    {prev : Option Char} {s : List Char} {L : Nat}
    (hm : matchTabPatAt p prev s = some L) : matchStemOpt p s = some L := by
  unfold matchTabPatAt at hm
  rw [htab] at hm
  simp only [Bool.false_eq_true, if_false] at hm
  split at hm
  case isTrue => exact hm
  case isFalse => exact absurd hm (by simp)

theorem matchStemOpt_take_tok {p : TabPat} {s : List Char} {L : Nat}
    (hm : matchStemOpt p s = some L)
    (hstem : p.stem.toList.all stableTok = true)
    (hopt : p.hasOpt = false ∨ stableTok p.optChar = true) :
    (s.take L).all isTokChar = true := by
  obtain ⟨hci, hL⟩ := matchStemOpt_cases hm
  rcases hL with rfl | ⟨rfl, hasOpt, c, r2, hdrop, hcic⟩
  · exact take_all_tok_of_ciStartsWith _ s hci hstem
  · have h1 : (s.take p.stem.toList.length).all isTokChar = true :=
      take_all_tok_of_ciStartsWith _ s hci hstem
    have hoptStable : stableTok p.optChar = true := by
      rcases hopt with h | h
      · rw [hasOpt] at h; exact absurd h (by simp)
      · exact h
    have h2 : isTokChar c = true := tok_of_ciEq hcic hoptStable
    have htake1 : ((c :: r2).take 1).all isTokChar = true := by
      have hh : (c :: r2).take 1 = [c] := rfl
      rw [hh]
      simp [h2]
    rw [List.take_add, List.all_append, hdrop, h1, htake1]
    rfl

theorem matchInner_cases {p : TabPat} {delim prev2 : Option Char} {s2 : List Char}
    {g2 : Nat} (hm : matchInner p delim prev2 s2 = some g2) :
    ∃ a L b, a ≤ tokRunLen s2 ∧
      matchTabPatAt p (if a = 0 then prev2 else s2.get? (a - 1)) (s2.drop a) = some L ∧
      b ≤ tokRunLen ((s2.drop a).drop L) ∧ g2 = a + L + b := by
  unfold matchInner at hm
  obtain ⟨a, ha, hfa⟩ := firstHit_eq_some hm
  have haLe : a ≤ tokRunLen s2 := mem_descRange ha
  dsimp only at hfa
  split at hfa
  case h_1 => exact absurd hfa (by simp)
  case h_2 L hL =>
    cases delim with
    | none =>
      refine ⟨a, L, tokRunLen ((s2.drop a).drop L), haLe, hL, le_refl _, ?_⟩
      exact (Option.some.inj hfa).symm
    | some d =>
      obtain ⟨b, hb, hfb⟩ := firstHit_eq_some hfa
      have hbLe : b ≤ tokRunLen ((s2.drop a).drop L) := mem_descRange hb
      split at hfb
      case h_1 c rest heq =>
        split at hfb
        case isTrue => exact ⟨a, L, b, haLe, hL, hbLe, (Option.some.inj hfb).symm⟩
        case isFalse => exact absurd hfb (by simp)
      case h_2 => exact absurd hfb (by simp)

theorem matchFromAt_tok {p : TabPat} {prev : Option Char} {s : List Char}
    {tok : List Char} (hm : matchFromAt p prev s = some tok) :
    ∃ (delim prev2 : Option Char) (s2 : List Char) (g2 : Nat),
      matchInner p delim prev2 s2 = some g2 ∧ tok = s2.take g2 := by
  unfold matchFromAt at hm
  split at hm
  case isFalse => exact absurd hm (by simp)
  case isTrue =>
    obtain ⟨w, _, hfw⟩ := firstHit_eq_some hm
    obtain ⟨delim, _, hfd⟩ := firstHit_eq_some hfw
    cases delim with
    | some d =>
      obtain ⟨g2, hg2, htok⟩ := Option.map_eq_some'.mp hfd
      exact ⟨some d, some d, _, g2, hg2, htok.symm⟩
    | none =>
      obtain ⟨g2, hg2, htok⟩ := Option.map_eq_some'.mp hfd
      exact ⟨none, _, _, g2, hg2, htok.symm⟩

theorem searchFromTable_exists {p : TabPat} :
    ∀ (s : List Char) (prev : Option Char) (tok : List Char),
      searchFromTable p prev s = some tok →
      ∃ (prev' : Option Char) (s' : List Char), matchFromAt p prev' s' = some tok := by
  intro s
  induction s with
  | nil => intro prev tok h; exact ⟨prev, [], h⟩
  | cons c rest ih =>
    intro prev tok h
    simp only [searchFromTable] at h
    split at h
    case h_1 g hg => exact ⟨prev, c :: rest, hg.trans h⟩
    case h_2 => exact ih (some c) tok h

/-- For every word-boundary table pattern (`tabStart = false`, which is every entry of
`PHONE_TABLES` but the first), the text extracted by the `from`-regex consists
entirely of token characters: no whitespace, comma, quote or backtick. -/
theorem searchFromTable_all_tok {p : TabPat} (htab : p.tabStart = false)
    (hstem : p.stem.toList.all stableTok = true)
    (hopt : p.hasOpt = false ∨ stableTok p.optChar = true)
    {prev : Option Char} {s tok : List Char}
    (h : searchFromTable p prev s = some tok) : tok.all isTokChar = true := by
  obtain ⟨prev', s', hmf⟩ := searchFromTable_exists s prev tok h
  obtain ⟨delim, prev2, s2, g2, hmi, rfl⟩ := matchFromAt_tok hmf
  obtain ⟨a, L, b, haLe, hmt, hbLe, rfl⟩ := matchInner_cases hmi
  have hstemL : matchStemOpt p (s2.drop a) = some L := matchTabPatAt_stem htab hmt
  have h1 : (s2.take a).all isTokChar = true :=
    take_all_of_le_takeWhile isTokChar s2 a haLe
  have h2 : ((s2.drop a).take L).all isTokChar = true :=
    matchStemOpt_take_tok hstemL hstem hopt
  have h3 : (((s2.drop a).drop L).take b).all isTokChar = true :=
    take_all_of_le_takeWhile isTokChar ((s2.drop a).drop L) b hbLe
  have hsplit : s2.take (a + L + b)
      = s2.take a ++ ((s2.drop a).take L ++ ((s2.drop a).drop L).take b) := by
    rw [Nat.add_assoc, List.take_add, List.take_add]
  rw [hsplit, List.all_append, List.all_append, h1, h2, h3]
  rfl

/-! ## Unfolding the classifier's stages -/

theorem classifier_isEmpty_false {q : String} (hne : q.toList ≠ []) :
    q.toList.isEmpty = false := by
  cases hq : q.toList with
  | nil => exact absurd hq hne
  | cons a as => rfl

theorem classifier_eq_col {q : String} {m : List Char}
    (hsel : hasSelectWord q.toList = true)
    (hcol : findColMatch PHONE_PATTERNS q.toList = some m) :
    find_phone_pattern_in_query q = some (String.mk m) := by
  have hne : q.toList ≠ [] := hasSelectWord_ne_nil hsel
  simp only [String.toList] at hne hsel hcol
  simp [find_phone_pattern_in_query, hne, hsel, hcol]

theorem classifier_eq_table {q : String} {tok : List Char}
    (hsel : hasSelectWord q.toList = true)
    (hcol : findColMatch PHONE_PATTERNS q.toList = none)
    (hstar : hasSelectStar q.toList = true)
    (htab : findTableMatch PHONE_TABLES q.toList = some tok) :
    find_phone_pattern_in_query q = some ("SELECT * from " ++ String.mk tok) := by
  have hne : q.toList ≠ [] := hasSelectWord_ne_nil hsel
  simp only [String.toList] at hne hsel hcol hstar htab
  simp [find_phone_pattern_in_query, hne, hsel, hcol, hstar, htab]

theorem classifier_none_noSelect {q : String}
    (hsel : hasSelectWord q.toList = false) :
    find_phone_pattern_in_query q = none := by
  by_cases hq : q.toList = []
  · simp only [String.toList] at hq
    simp [find_phone_pattern_in_query, hq]
  · simp only [String.toList] at hq hsel
    simp [find_phone_pattern_in_query, hq, hsel]

theorem classifier_none_afterCol {q : String}
    (hcol : findColMatch PHONE_PATTERNS q.toList = none)
    (hrest : hasSelectStar q.toList = false ∨
      findTableMatch PHONE_TABLES q.toList = none) :
    find_phone_pattern_in_query q = none := by
  by_cases hq : q.toList = []
  · simp only [String.toList] at hq
    simp [find_phone_pattern_in_query, hq]
  · by_cases hsel : hasSelectWord q.toList = true
    case neg =>
      have hsel' : hasSelectWord q.toList = false := by simpa using hsel
      exact classifier_none_noSelect hsel'
    case pos =>
      simp only [String.toList] at hq hsel hcol
      rcases hrest with h | h
      · simp only [String.toList] at h
        simp [find_phone_pattern_in_query, hq, hsel, hcol, h]
      · by_cases hstar : hasSelectStar q.toList = true
        · simp only [String.toList] at hstar h
          simp [find_phone_pattern_in_query, hq, hsel, hcol, hstar, h]
        · have hstar' : hasSelectStar q.toList = false := by simpa using hstar
          simp only [String.toList] at hstar'
          simp [find_phone_pattern_in_query, hq, hsel, hcol, hstar']

/-! ## Claim theorems: the classifier -/

/-- C2: for every query text containing a case-insensitive whole-word `select`
token, the column patterns are tested in the fixed list order against the whole
text; the first pattern in list order with any match wins, regardless of where in
the text it matches, and the result is the exact matched substring of the original
text with casing preserved.  In particular `"SELECT phone FROM users"` yields
`"phone"` and `"select to_contact_orig from x"` yields `"to_contact_orig"`. -/
theorem C2_column_priority :
    (∀ (q : String) (k : Nat) (p : PhonePat) (i len : Nat),
        hasSelectWord q.toList = true →
        PHONE_PATTERNS.get? k = some p →
        (∀ p' ∈ PHONE_PATTERNS.take k, searchPat p' q.toList = none) →
        searchPat p q.toList = some (i, len) →
        find_phone_pattern_in_query q = some (String.mk ((q.toList.drop i).take len)))
    ∧ find_phone_pattern_in_query "SELECT phone FROM users" = some "phone"
    ∧ find_phone_pattern_in_query "select to_contact_orig from x"
        = some "to_contact_orig" := by
  refine ⟨?_, by decide, by decide⟩
  intro q k p i len hsel hk hpre hp
  exact classifier_eq_col hsel (findColMatch_spec q.toList PHONE_PATTERNS k p i len hk hpre hp)

/-- Witness for C2: the third pattern (`mobile`) wins on `"select mobile"`, with the
earlier patterns matching nowhere, and the result is the matched substring. -/
theorem C2_column_priority_witness :
    find_phone_pattern_in_query "select mobile" = some "mobile" := by
  have h := C2_column_priority.1 "select mobile" 2 (.wordPat "mobile") 7 6
    (by decide) (by decide) (by decide) (by decide)
  exact h.trans (by decide)

/-- C4: the classifier returns `none` on the empty (or absent, since an absent query
defaults to the empty string) query text, and on every text in which the whole-word
pattern `select` matches at no position of the lowercased text — in particular on
`"update contacts set phone=1"`. -/
theorem C4_absent_without_select :
    find_phone_pattern_in_query "" = none
    ∧ (∀ q : String,
        matchWordPat selectLit none (q.toList.map Char.toLower) = none →
        (∀ k, k < (q.toList.map Char.toLower).length →
          matchWordPat selectLit ((q.toList.map Char.toLower).get? k)
            ((q.toList.map Char.toLower).drop (k + 1)) = none) →
        find_phone_pattern_in_query q = none)
    ∧ find_phone_pattern_in_query "update contacts set phone=1" = none := by
  refine ⟨by decide, ?_, by decide⟩
  intro q h0 hk
  have hsel : hasSelectWord q.toList = false := by
    unfold hasSelectWord
    rw [searchFrom_eq_none (matchWordPat selectLit) (q.toList.map Char.toLower) none 0 h0 hk]
    rfl
  exact classifier_none_noSelect hsel

/-- Witness for C4: no position of `"update contacts set phone=1"` carries a
whole-word `select`, so the classifier returns `none`. -/
theorem C4_absent_without_select_witness :
    find_phone_pattern_in_query "update contacts set phone=1" = none :=
  C4_absent_without_select.2.1 "update contacts set phone=1" (by decide) (by decide)

/-- C3 counterexample: on `"select * from \to_contact"` (a literal TAB between
`from`'s whitespace and `o_contact`) no column pattern matches anywhere, yet the
classifier returns `"SELECT * from \to_contact"`, whose extracted table text
contains a whitespace character.  The claim's description — the extracted text is a
full token bounded by whitespace/comma/quote, and the classifier returns `none`
when no table pattern occurs inside such a token — therefore fails: the first
`PHONE_TABLES` entry is the raw regex `\to_contact?\b`, whose `\t` is a literal TAB
rather than part of a `to_contact` table name. -/
theorem C3_counterexample :
    find_phone_pattern_in_query "select * from \to_contact"
        = some "SELECT * from \to_contact"
    ∧ (∀ p ∈ PHONE_PATTERNS, searchPat p "select * from \to_contact".toList = none)
    ∧ "\to_contact".toList.any isSpaceChar = true :=
  ⟨by decide, by decide, by decide⟩

/-- C3 (amended): for query text with whole-word `select` where no column pattern
matches but the text contains `select\s+*`, the table patterns are scanned in the
fixed list order and the first whose extraction regex matches anywhere wins; the
classifier returns the synthesized string `SELECT * from <extracted>`, where
`<extracted>` is the regex's captured group-2 text.  For each of the word-boundary
table patterns (every list entry but the first) the extracted text consists only of
token characters — no whitespace, comma, quote or backtick — i.e. it stays inside
one delimited token after `from`; the first list entry is a literal-TAB pattern
(`\to_contact?\b`) whose extraction can include that leading TAB.  If neither the
column patterns nor any table extraction matches, the classifier returns `none`;
`"select * from contacts"` yields `"SELECT * from contacts"`. -/
theorem C3_table_fallback :
    (∀ (q : String) (k : Nat) (p : TabPat) (tok : List Char),
        hasSelectWord q.toList = true →
        (∀ p' ∈ PHONE_PATTERNS, searchPat p' q.toList = none) →
        hasSelectStar q.toList = true →
        PHONE_TABLES.get? k = some p →
        (∀ p' ∈ PHONE_TABLES.take k, searchFromTable p' none q.toList = none) →
        searchFromTable p none q.toList = some tok →
        find_phone_pattern_in_query q = some ("SELECT * from " ++ String.mk tok))
    ∧ (∀ (p : TabPat) (q : String) (tok : List Char),
        p ∈ PHONE_TABLES → p.tabStart = false →
        searchFromTable p none q.toList = some tok →
        tok.all isTokChar = true)
    ∧ (∀ q : String,
        (∀ p' ∈ PHONE_PATTERNS, searchPat p' q.toList = none) →
        (hasSelectStar q.toList = false ∨
          (∀ p' ∈ PHONE_TABLES, searchFromTable p' none q.toList = none)) →
        find_phone_pattern_in_query q = none)
    ∧ find_phone_pattern_in_query "select * from contacts"
        = some "SELECT * from contacts" := by
  refine ⟨?_, ?_, ?_, by decide⟩
  · intro q k p tok hsel hcols hstar hk hpre htab
    have hcol : findColMatch PHONE_PATTERNS q.toList = none :=
      findColMatch_none q.toList PHONE_PATTERNS hcols
    have htm : findTableMatch PHONE_TABLES q.toList = some tok :=
      findTableMatch_spec q.toList PHONE_TABLES k p tok hk hpre htab
    exact classifier_eq_table hsel hcol hstar htm
  · intro p q tok hmem htab hsearch
    have hstem : p.stem.toList.all stableTok = true := by
      fin_cases hmem
      · exact absurd htab (by decide)
      all_goals decide
    have hopt : p.hasOpt = false ∨ stableTok p.optChar = true := by
      fin_cases hmem
      · exact absurd htab (by decide)
      all_goals first
        | (right; decide)
        | (left; decide)
    exact searchFromTable_all_tok htab hstem hopt hsearch
  · intro q hcols hrest
    have hcol : findColMatch PHONE_PATTERNS q.toList = none :=
      findColMatch_none q.toList PHONE_PATTERNS hcols
    rcases hrest with h | h
    · exact classifier_none_afterCol hcol (Or.inl h)
    · exact classifier_none_afterCol hcol
        (Or.inr (findTableMatch_none q.toList PHONE_TABLES h))

/-- Witness for C3 (amended): the fifth table pattern (`sender` + optional `s`) wins
on `"select * from senders"`, its extracted text `"senders"` is all token
characters, and a text with no matching pattern yields `none`. -/
theorem C3_table_fallback_witness :
    find_phone_pattern_in_query "select * from senders" = some "SELECT * from senders"
    ∧ "senders".toList.all isTokChar = true
    ∧ find_phone_pattern_in_query "select 9" = none := by
  refine ⟨?_, ?_, ?_⟩
  · exact (C3_table_fallback.1 "select * from senders" 4 ⟨false, "sender", true, 's'⟩
      "senders".toList (by decide) (by decide) (by decide) (by decide) (by decide)
      (by decide)).trans (by decide)
  · exact C3_table_fallback.2.1 ⟨false, "sender", true, 's'⟩ "select * from senders"
      "senders".toList (by decide) (by decide) (by decide)
  · exact C3_table_fallback.2.2.1 "select 9" (by decide) (Or.inl (by decide))

/-! ## Consolidator helper lemmas -/

theorem or_true_split {a b : Bool} (h : (a || b) = true) : a = true ∨ b = true := by
  simp only [Bool.or_eq_true] at h
  exact h

theorem or_false_split {a b : Bool} (h : (a || b) = false) : a = false ∧ b = false := by
  simp only [Bool.or_eq_false_iff] at h
  exact h

theorem find_map_replace : ∀ (row : LogRow) (k v : String),
    row.any (fun kv => kv.fst = k) = true →
    lookupField (row.map (fun kv => if kv.fst = k then (k, v) else kv)) k = some v := by
  intro row
  induction row with
  | nil => intro k v h; simp at h
  | cons a row' ih =>
    intro k v h
    by_cases hak : a.fst = k
    · simp [lookupField, List.find?, hak]
    · have h' : row'.any (fun kv => kv.fst = k) = true := by
        rw [List.any_cons] at h
        rcases or_true_split h with h1 | h1
        · exact absurd (of_decide_eq_true h1) hak
        · exact h1
      have hrec := ih k v h'
      simp only [List.map_cons, if_neg hak]
      unfold lookupField at hrec ⊢
      rw [List.find?_cons_of_neg]
      · exact hrec
      · simpa using hak

theorem lookup_append_last : ∀ (row : LogRow) (k v : String),
    row.any (fun kv => kv.fst = k) = false →
    lookupField (row ++ [(k, v)]) k = some v := by
  intro row
  induction row with
  | nil => intro k v _; simp [lookupField, List.find?]
  | cons a row' ih =>
    intro k v h
    rw [List.any_cons] at h
    obtain ⟨ha, h2⟩ := or_false_split h
    simp only [List.cons_append]
    unfold lookupField at ih ⊢
    rw [List.find?_cons_of_neg]
    · exact ih k v h2
    · simp [ha]

theorem lookup_dictInsert (row : LogRow) (k v : String) :
    lookupField (dictInsert row k v) k = some v := by
  unfold dictInsert
  by_cases h : row.any (fun kv => kv.fst = k) = true
  · rw [if_pos h]
    exact find_map_replace row k v h
  · rw [if_neg h]
    refine lookup_append_last row k v ?_
    cases hb : row.any (fun kv => kv.fst = k) with
    | false => rfl
    | true => exact absurd hb h

theorem foldl_none_rows (parse : String → JsonOutcome) :
    ∀ (files : List InputFile) (st : ConsState),
      (files.foldl (stepFile parse) st).fieldnames = none →
      (files.foldl (stepFile parse) st).allRows = st.allRows := by
  intro files
  induction files with
  | nil => intro st _; rfl
  | cons g gs ih =>
    intro st h
    simp only [List.foldl_cons] at h ⊢
    have hmid : (stepFile parse st g).fieldnames = none :=
      foldl_fieldnames_none parse gs _ h
    rw [ih _ h]
    cases g with
    | missing => rfl
    | present hdr evs =>
      cases hpe : process_csv_file parse evs with
      | nil => simp [stepFile, hpe]
      | cons rm rest =>
        exfalso
        simp only [stepFile, hpe] at hmid
        cases hst : st.fieldnames with
        | none => simp [hst] at hmid
        | some f => simp [hst] at hmid

theorem consolidate_fieldnames_of_rows (parse : String → JsonOutcome)
    (files : List InputFile) (h : (consolidate parse files).allRows ≠ []) :
    ∃ f, (consolidate parse files).fieldnames = some f := by
  cases hf : (consolidate parse files).fieldnames with
  | some f => exact ⟨f, rfl⟩
  | none => exact absurd (foldl_none_rows parse files ⟨[], none⟩ hf) h

theorem rowsToCsv_of_all (fns : List String) :
    ∀ (rows : List LogRow),
      (∀ row ∈ rows, row.all (fun kv => fns.contains kv.fst) = true) →
      ∃ body, rowsToCsv fns rows = some body ∧ body.length = rows.length := by
  intro rows
  induction rows with
  | nil => intro _; exact ⟨[], rfl, rfl⟩
  | cons r rs ih =>
    intro h
    obtain ⟨body, hb, hlen⟩ := ih (fun row hrow => h row (by simp [hrow]))
    have hr : dictToRow fns r = some (fns.map (fun k => (lookupField r k).getD "")) := by
      unfold dictToRow
      rw [if_pos (h r (by simp))]
    refine ⟨fns.map (fun k => (lookupField r k).getD "") :: body, ?_, by simp [hlen]⟩
    simp [rowsToCsv, hr, hb]

/-- Two event sequences with the same processing outcome make the same loop step. -/
theorem stepFile_congr_events (parse : String → JsonOutcome) (st : ConsState)
    (hdr : List String) (evs evs' : List RowEvent)
    (h : process_csv_file parse evs = process_csv_file parse evs') :
    stepFile parse st (.present hdr evs) = stepFile parse st (.present hdr evs') := by
  simp only [stepFile, h]

theorem stepFile_first_match (parse : String → JsonOutcome) (st : ConsState)
    (hst : st.fieldnames = none) (hdr : List String) (evs : List RowEvent)
    (r0 : LogRow) (m0 : String) (mrest : List (LogRow × String))
    (hfile : process_csv_file parse evs = (r0, m0) :: mrest) :
    (stepFile parse st (.present hdr evs)).fieldnames
      = some (r0.map Prod.fst ++ ["matched_phone_pattern"]) := by
  simp only [stepFile, hfile, hst]

/-! ## Claim theorems: the consolidator -/

/-- C1 counterexample: a file whose reader raises after one already-matched row.
The claim says the file is treated as fully skipped, with no partial results in the
consolidated output; in fact `matching_rows` is initialised before the `try:` and
returned by the whole-file handler, so the match collected before the failure IS
retained and consolidated. -/
theorem C1_counterexample :
    (consolidate parseEx [fileCut]).allRows
        = [[("id", "1"), ("additional_properties", "qPhone"),
            ("matched_phone_pattern", "phone")]]
    ∧ (consolidate parseEx [fileCut]).allRows ≠ [] :=
  ⟨by decide, by decide⟩

/-- C1 (amended): a mid-file read error abandons the remaining rows of that file at
the failure point, but the rows already classified as matches before the failure
ARE retained — `process_csv_file` returns exactly the prefix collected so far, and
consolidation over a file list containing the failing file equals consolidation
with the file truncated at the failure point; processing continues with the
following files. -/
theorem C1_midfile_error (parse : String → JsonOutcome) :
    (∀ (pre rest : List RowEvent),
        process_csv_file parse (pre ++ .readErr :: rest) = process_csv_file parse pre)
    ∧ (∀ (fs1 fs2 : List InputFile) (hdr : List String) (pre rest : List RowEvent),
        consolidate parse (fs1 ++ .present hdr (pre ++ .readErr :: rest) :: fs2)
          = consolidate parse (fs1 ++ .present hdr pre :: fs2)) := by
  constructor
  · exact process_append_abort parse .readErr (process_readErr_aborts parse)
  · intro fs1 fs2 hdr pre rest
    unfold consolidate
    rw [List.foldl_append, List.foldl_append, List.foldl_cons, List.foldl_cons,
      stepFile_congr_events parse (fs1.foldl (stepFile parse) ⟨[], none⟩) hdr
        (pre ++ .readErr :: rest) pre
        (process_append_abort parse .readErr (process_readErr_aborts parse) pre rest)]

/-- C10: a row whose `additional_properties` parses to a non-object raises an
`AttributeError` the per-row handler does not catch; the whole-file handler returns
the matches collected so far, so the file is cut at that row — earlier matches are
kept and consolidated, later rows of the same file are never processed. -/
theorem C10_nonobject_cuts_file (parse : String → JsonOutcome) :
    (∀ (row : LogRow) (pre rest : List RowEvent),
        parse (apText row) = .jnonObject →
        process_csv_file parse (pre ++ .rowEv row :: rest) = process_csv_file parse pre)
    ∧ (∀ (row : LogRow) (fs1 fs2 : List InputFile) (hdr : List String)
        (pre rest : List RowEvent),
        parse (apText row) = .jnonObject →
        consolidate parse (fs1 ++ .present hdr (pre ++ .rowEv row :: rest) :: fs2)
          = consolidate parse (fs1 ++ .present hdr pre :: fs2)) := by
  constructor
  · intro row pre rest h
    exact process_append_abort parse (.rowEv row)
      (process_nonObject_aborts parse row h) pre rest
  · intro row fs1 fs2 hdr pre rest h
    unfold consolidate
    rw [List.foldl_append, List.foldl_append, List.foldl_cons, List.foldl_cons,
      stepFile_congr_events parse (fs1.foldl (stepFile parse) ⟨[], none⟩) hdr
        (pre ++ .rowEv row :: rest) pre
        (process_append_abort parse (.rowEv row)
          (process_nonObject_aborts parse row h) pre rest)]

/-- Witness for C10: a non-object row after one matched row cuts the file there,
and the earlier match is still returned. -/
theorem C10_nonobject_cuts_file_witness :
    process_csv_file parseEx ([.rowEv rowPhone] ++ .rowEv rowNonObj :: [.rowEv rowStar])
        = process_csv_file parseEx [.rowEv rowPhone]
    ∧ process_csv_file parseEx [.rowEv rowPhone] = [(rowPhone, "phone")] := by
  constructor
  · exact (C10_nonobject_cuts_file parseEx).1 rowNonObj [.rowEv rowPhone]
      [.rowEv rowStar] (by decide)
  · decide

/-- C5: the output schema is fixed exactly once, by the first file that yields at
least one matching row: it equals that file's first matching row's key sequence
plus the appended `matched_phone_pattern` key; earlier zero-match (or missing)
files contribute nothing, and later files never change it. -/
theorem C5_schema_fixed_once (parse : String → JsonOutcome)
    (pre post : List InputFile) (hdr : List String) (evs : List RowEvent)
    (r0 : LogRow) (m0 : String) (mrest : List (LogRow × String))
    (hpre : ∀ g ∈ pre, fileMatches parse g = [])
    (hfile : process_csv_file parse evs = (r0, m0) :: mrest) :
    (consolidate parse (pre ++ .present hdr evs :: post)).fieldnames
      = some (r0.map Prod.fst ++ ["matched_phone_pattern"]) := by
  unfold consolidate
  rw [List.foldl_append, foldl_no_matches parse pre ⟨[], none⟩ hpre, List.foldl_cons]
  exact foldl_fieldnames_some parse post _ _
    (stepFile_first_match parse ⟨[], none⟩ rfl hdr evs r0 m0 mrest hfile)

/-- Witness for C5: three files where only the second has matches — the schema is
the second file's row keys plus `matched_phone_pattern`. -/
theorem C5_schema_fixed_once_witness :
    (consolidate parseEx [fileQuiet, fileHits, fileQuiet]).fieldnames
      = some ["id", "additional_properties", "matched_phone_pattern"] := by
  have h := C5_schema_fixed_once parseEx [fileQuiet] [fileQuiet]
    ["id", "additional_properties"] [.rowEv rowPhone, .rowEv rowStar]
    rowPhone "phone" [(rowStar, "SELECT * from contacts")] (by decide) (by decide)
  exact h.trans (by decide)

/-- C6: the consolidated sequence is exactly the concatenation, in file order then
row order, of each file's matches with the `matched_phone_pattern` field written in;
its length is the total number of matches kept; every consolidated row carries a
non-absent `matched_phone_pattern` value; and whenever there is at least one row and
every row's keys lie in the schema, the written output is the header followed by one
serialised line per consolidated row. -/
theorem C6_rows_in_order (parse : String → JsonOutcome) (files : List InputFile) :
    (consolidate parse files).allRows
        = (files.map (fun f => (fileMatches parse f).map addMatched)).flatten
    ∧ (consolidate parse files).allRows.length
        = ((files.map (fun f => (fileMatches parse f).length)).sum)
    ∧ (∀ row ∈ (consolidate parse files).allRows,
        ∃ mres, lookupField row "matched_phone_pattern" = some mres)
    ∧ ((consolidate parse files).allRows ≠ [] →
        (∀ row ∈ (consolidate parse files).allRows,
          row.all (fun kv =>
            ((consolidate parse files).fieldnames.getD []).contains kv.fst) = true) →
        ∃ f body, (consolidate parse files).fieldnames = some f
          ∧ writeOutput parse files = some (f :: body)
          ∧ body.length = (consolidate parse files).allRows.length) := by
  have h1 : (consolidate parse files).allRows
      = (files.map (fun f => (fileMatches parse f).map addMatched)).flatten := by
    simpa [consolidate] using foldl_allRows parse files ⟨[], none⟩
  refine ⟨h1, ?_, ?_, ?_⟩
  · rw [h1, List.length_flatten, List.map_map]
    have hfun : (List.length ∘ fun f => List.map addMatched (fileMatches parse f))
        = fun f => (fileMatches parse f).length := by
      funext f
      simp [Function.comp, List.length_map]
    rw [hfun]
  · intro row hrow
    rw [h1] at hrow
    simp only [List.mem_flatten, List.mem_map] at hrow
    obtain ⟨l, ⟨f, hf, rfl⟩, hrow⟩ := hrow
    rw [List.mem_map] at hrow
    obtain ⟨rp, hrp, rfl⟩ := hrow
    exact ⟨rp.snd, lookup_dictInsert rp.fst "matched_phone_pattern" rp.snd⟩
  · intro hne hcompat
    obtain ⟨f, hf⟩ := consolidate_fieldnames_of_rows parse files hne
    simp only [hf, Option.getD_some] at hcompat
    obtain ⟨body, hb, hlen⟩ :=
      rowsToCsv_of_all f (consolidate parse files).allRows hcompat
    refine ⟨f, body, hf, ?_, hlen⟩
    cases hrows : (consolidate parse files).allRows with
    | nil => exact absurd hrows hne
    | cons r rs =>
      rw [hrows] at hb
      simp [writeOutput, hrows, hf, hb]

/-- Witness for C6: two files, two matches, all keys in schema — the output is the
header plus two rows. -/
theorem C6_rows_in_order_witness :
    ∃ f body, (consolidate parseEx [fileQuiet, fileHits]).fieldnames = some f
      ∧ writeOutput parseEx [fileQuiet, fileHits] = some (f :: body)
      ∧ body.length = (consolidate parseEx [fileQuiet, fileHits]).allRows.length :=
  (C6_rows_in_order parseEx [fileQuiet, fileHits]).2.2.2 (by decide) (by decide)

/-- C7: a row whose `additional_properties` text is malformed JSON is skipped alone
(the per-row handler catches `JSONDecodeError` and continues); a row with the field
missing gets the `'{}'` default, parses to an empty object, defaults its query to
the empty string, and is likewise skipped alone; a row parsing to an object without
a `query` key defaults to the empty-string query and is skipped alone.  In every
case the remaining rows are still processed and the run is not aborted. -/
theorem C7_per_row_errors (parse : String → JsonOutcome) :
    (∀ (row : LogRow) (rest : List RowEvent),
        parse (apText row) = .jerror →
        process_csv_file parse (.rowEv row :: rest) = process_csv_file parse rest)
    ∧ (∀ (row : LogRow) (rest : List RowEvent),
        lookupField row "additional_properties" = none →
        parse emptyJsonText = .jobject none →
        process_csv_file parse (.rowEv row :: rest) = process_csv_file parse rest)
    ∧ (∀ (row : LogRow) (rest : List RowEvent),
        parse (apText row) = .jobject none →
        process_csv_file parse (.rowEv row :: rest) = process_csv_file parse rest) := by
  have hempty : find_phone_pattern_in_query "" = none := by decide
  refine ⟨?_, ?_, ?_⟩
  · intro row rest h
    simp [process_csv_file, h]
  · intro row rest hlk hp
    have hap : apText row = emptyJsonText := by
      unfold apText
      rw [hlk]
      rfl
    have h : parse (apText row) = .jobject none := by rw [hap]; exact hp
    simp [process_csv_file, h, hempty]
  · intro row rest h
    simp [process_csv_file, h, hempty]

/-- Witness for C7: a malformed-JSON row, a field-missing row and a no-query-key row
are each skipped alone, with the following matched row still processed. -/
theorem C7_per_row_errors_witness :
    process_csv_file parseEx (.rowEv rowBadJson :: [.rowEv rowPhone])
        = process_csv_file parseEx [.rowEv rowPhone]
    ∧ process_csv_file parseEx (.rowEv rowNoAP :: [.rowEv rowPhone])
        = process_csv_file parseEx [.rowEv rowPhone]
    ∧ process_csv_file parseEx (.rowEv rowNoQuery :: [.rowEv rowPhone])
        = process_csv_file parseEx [.rowEv rowPhone]
    ∧ process_csv_file parseEx [.rowEv rowPhone] = [(rowPhone, "phone")] := by
  refine ⟨?_, ?_, ?_, by decide⟩
  · exact (C7_per_row_errors parseEx).1 rowBadJson [.rowEv rowPhone] (by decide)
  · exact (C7_per_row_errors parseEx).2.1 rowNoAP [.rowEv rowPhone] (by decide) (by decide)
  · exact (C7_per_row_errors parseEx).2.2 rowNoQuery [.rowEv rowPhone] (by decide)

/-- C8: with zero matches across all files the program still writes a single valid
header row: the determined schema is provably never set in that case, so the header
is the first existing input file's own header plus the appended
`matched_phone_pattern` column, or the hardcoded default header when no input file
exists at all. -/
theorem C8_header_only (parse : String → JsonOutcome) (files : List InputFile)
    (h : ∀ f ∈ files, fileMatches parse f = []) :
    (consolidate parse files).fieldnames = none
    ∧ (∀ hd, firstExistingHeader files = some hd →
        writeOutput parse files = some [hd ++ ["matched_phone_pattern"]]
        ∧ writeOutputBytes parse files
            = some (csvLine (hd ++ ["matched_phone_pattern"])))
    ∧ (firstExistingHeader files = none →
        writeOutput parse files = some [DEFAULT_HEADER]
        ∧ writeOutputBytes parse files = some defaultHeaderLine) := by
  have hcons : consolidate parse files = ⟨[], none⟩ :=
    foldl_no_matches parse files ⟨[], none⟩ h
  refine ⟨by rw [hcons], ?_, ?_⟩
  · intro hd hhd
    have hne : (hd ++ ["matched_phone_pattern"]).isEmpty = false := by
      cases hd <;> rfl
    constructor
    · simp [writeOutput, hcons, hhd, hne]
    · simp [writeOutputBytes, hcons, hhd, hne]
  · intro hnone
    constructor
    · simp [writeOutput, hcons, hnone]
    · simp [writeOutputBytes, hcons, hnone]

/-- Witness for C8: with an existing zero-match file the header is that file's
header plus the appended column; with no existing file at all it is the hardcoded
default. -/
theorem C8_header_only_witness :
    writeOutput parseEx [.missing, fileQuiet]
        = some [["x", "additional_properties", "matched_phone_pattern"]]
    ∧ writeOutputBytes parseEx [.missing] = some defaultHeaderLine := by
  constructor
  · exact ((C8_header_only parseEx [.missing, fileQuiet] (by decide)).2.1
      ["x", "additional_properties"] (by decide)).1
  · exact ((C8_header_only parseEx [.missing] (by decide)).2.2 (by decide)).2

/-- C9: the consolidation is deterministic — the embedding is a pure function of
the parse oracle and the input-file contents, so two runs over equal inputs write
byte-identical output (and equal row-level output). -/
theorem C9_deterministic (parse parse2 : String → JsonOutcome)
    (files files2 : List InputFile) (hp : parse = parse2) (hf : files = files2) :
    writeOutputBytes parse files = writeOutputBytes parse2 files2
    ∧ writeOutput parse files = writeOutput parse2 files2 := by
  subst hp
  subst hf
  exact ⟨rfl, rfl⟩

/-- Witness for C9: two runs over the same concrete inputs produce the same bytes. -/
theorem C9_deterministic_witness :
    writeOutputBytes parseEx [fileQuiet, fileHits]
        = writeOutputBytes parseEx [fileQuiet, fileHits]
    ∧ writeOutput parseEx [fileQuiet, fileHits]
        = writeOutput parseEx [fileQuiet, fileHits] :=
  C9_deterministic parseEx parseEx [fileQuiet, fileHits] [fileQuiet, fileHits] rfl rfl

end AnalyzePhonePii
